import Mathlib

/-!
# Verification of `video_concator` (`src/main.go`)

Shallow embedding of the Go program in `src/main.go` together with proofs
about the spec's claims.  Each definition mirrors the corresponding Go
function (names are kept where Lean allows it); machine integers are
modelled as `Nat`/`Int` with explicit wrap-around where it matters, and
fallible Go code returns `Option`/`Except`.  Filesystem contents, the
working directory, the availability of the `ffmpeg` binary, temporary-file
creation and the outcome of the external invocation are passed in
explicitly as an environment, since the Go code observes them through
side effects.
-/

/-! ## Manifest-line escaping (createConcatListFile, src/main.go:156-164)

`strings.ReplaceAll(file, "'", "'\\''")`: every single-quote character is
replaced by the four characters quote, backslash, quote, quote. -/

/-- Character-level embedding of `strings.ReplaceAll(file, "'", "'\\''")`.
The replacement pattern is the single character `'`, so `ReplaceAll` is
exactly this character-wise expansion. -/
def escapeQuoteL : List Char → List Char
  | [] => []
  | c :: cs =>
    if c = '\'' then '\'' :: '\\' :: '\'' :: '\'' :: escapeQuoteL cs
    else c :: escapeQuoteL cs

/-- String-level wrapper of `escapeQuoteL`. -/
def escapeQuote (s : String) : String := ⟨escapeQuoteL s.data⟩

/-- Embedding of `fmt.Sprintf("file '%s'\n", escapedPath)` applied to the
escaped path (src/main.go:160). -/
def fileLine (f : String) : String := "file '" ++ escapeQuote f ++ "'\n"

/-- Manifest text produced by the write loop of `createConcatListFile`
(src/main.go:156-164): the lines are appended in input order. -/
def manifestContent (files : List String) : String :=
  files.foldl (fun acc f => acc ++ fileLine f) ""

/-- Modelled from the spec: the single-quote quoting rule of the external
tool's concat manifest (spec §4.3 / §6).  Inside `'...'` every character is
literal until the next `'`; outside quotes a backslash escapes the next
character and `'` opens a quoted section.  Parsing fails on an unterminated
quote or a dangling backslash.  The Boolean argument is the current
"inside quotes" state. -/
def unquoteL : List Char → Bool → Option (List Char)
  | [], false => some []
  | [], true => none
  | c :: cs, true =>
    if c = '\'' then unquoteL cs false
    else (unquoteL cs true).map (c :: ·)
  | c :: cs, false =>
    if c = '\'' then unquoteL cs true
    else if c = '\\' then
      match cs with
      | [] => none
      | d :: ds => (unquoteL ds false).map (d :: ·)
    else (unquoteL cs false).map (c :: ·)

/-- Parse a whole token under the single-quote quoting rule. -/
def parseQuoted (s : String) : Option String :=
  (unquoteL s.data false).map (fun cs => ⟨cs⟩)

/-! ## Physical lines of the manifest text -/

/-- Split a character list at each newline (the physical lines of a text
file); the trailing element corresponds to the text after the last
newline. -/
def splitLinesL : List Char → List (List Char)
  | [] => [[]]
  | c :: cs =>
    if c = '\n' then [] :: splitLinesL cs
    else
      match splitLinesL cs with
      | [] => [[c]]
      | l :: ls => (c :: l) :: ls

/-- The physical lines of a piece of text that ends with a newline:
everything before the final trailing empty segment. -/
def manifestLines (s : String) : List (List Char) :=
  (splitLinesL s.data).dropLast

theorem splitLinesL_ne_nil (cs : List Char) : splitLinesL cs ≠ [] := by
  induction cs with
  | nil => simp [splitLinesL]
  | cons c cs ih =>
    simp only [splitLinesL]
    split
    · simp
    · cases h : splitLinesL cs with
      | nil => simp
      | cons l ls => simp

theorem splitLinesL_append_newline (l rest : List Char) (h : '\n' ∉ l) :
    splitLinesL (l ++ '\n' :: rest) = l :: splitLinesL rest := by
  induction l with
  | nil => simp [splitLinesL]
  | cons c cs ih =>
    have hc : c ≠ '\n' := fun hc => h (by simp [hc])
    have hcs : '\n' ∉ cs := fun hm => h (by simp [hm])
    simp only [List.cons_append, splitLinesL, hc, if_false]
    rw [List.append_eq, ih hcs]

/-! ## Escape / unescape round-trip -/

theorem unquoteL_openQuote (cs : List Char) :
    unquoteL ('\'' :: cs) false = unquoteL cs true := by
  conv_lhs => rw [unquoteL.eq_def]
  simp

theorem unquoteL_closeQuote (cs : List Char) :
    unquoteL ('\'' :: cs) true = unquoteL cs false := by
  conv_lhs => rw [unquoteL.eq_def]
  simp

theorem unquoteL_backslash (d : Char) (ds : List Char) :
    unquoteL ('\\' :: d :: ds) false = (unquoteL ds false).map (d :: ·) := by
  conv_lhs => rw [unquoteL.eq_def]
  simp

theorem unquoteL_other (c : Char) (cs : List Char) (hq : c ≠ '\'') (hb : c ≠ '\\') :
    unquoteL (c :: cs) false = (unquoteL cs false).map (c :: ·) := by
  conv_lhs => rw [unquoteL.eq_def]
  simp [hq, hb]

theorem unquoteL_inQuote (c : Char) (cs : List Char) (hq : c ≠ '\'') :
    unquoteL (c :: cs) true = (unquoteL cs true).map (c :: ·) := by
  conv_lhs => rw [unquoteL.eq_def]
  simp [hq]

/-- Escaping never drops a character: inside an open quote, parsing the
escaped text followed by the closing quote recovers the original
characters. -/
theorem unquoteL_escape (cs : List Char) :
    unquoteL (escapeQuoteL cs ++ ['\'']) true = some cs := by
  induction cs with
  | nil => simp [escapeQuoteL, unquoteL]
  | cons c cs ih =>
    by_cases hc : c = '\''
    · subst hc
      have hexp : escapeQuoteL ('\'' :: cs) = '\'' :: '\\' :: '\'' :: '\'' :: escapeQuoteL cs := by
        simp [escapeQuoteL]
      rw [hexp, List.cons_append, List.cons_append, List.cons_append, List.cons_append,
        unquoteL_closeQuote, unquoteL_backslash, unquoteL_openQuote, ih]
      rfl
    · have hexp : escapeQuoteL (c :: cs) = c :: escapeQuoteL cs := by
        simp [escapeQuoteL, hc]
      rw [hexp, List.cons_append, unquoteL_inQuote c _ hc, ih]
      rfl

theorem escapeQuote_data (s : String) : (escapeQuote s).data = escapeQuoteL s.data := rfl

/-- C3: for every path string, the Manifest Builder emits the line
`file '<escaped>'` where each single quote in the path is replaced by the
sequence `'\''` (this is what `strings.ReplaceAll(file, "'", "'\\''")` and
the `fmt.Sprintf` at src/main.go:158-160 produce), and parsing the quoted
token back under the single-quote quoting rule recovers exactly the
original path; the spec's scenario `O'Brien/clip.mp4` produces the
documented manifest line. -/
theorem c3_escape_roundtrip (p : String) :
    parseQuoted ("'" ++ escapeQuote p ++ "'") = some p ∧
    fileLine p = "file '" ++ escapeQuote p ++ "'\n" ∧
    fileLine "O'Brien/clip.mp4" = "file 'O'\\''Brien/clip.mp4'\n" := by
  refine ⟨?_, rfl, by decide⟩
  have hdata : ("'" ++ escapeQuote p ++ "'").data = '\'' :: (escapeQuoteL p.data ++ ['\'']) := by
    simp [String.data_append, escapeQuote]
  simp only [parseQuoted, hdata, unquoteL_openQuote, unquoteL_escape, Option.map_some]
  rfl

/-- Escaping introduces no newline. -/
theorem escapeQuoteL_no_newline (cs : List Char) (h : '\n' ∉ cs) :
    '\n' ∉ escapeQuoteL cs := by
  induction cs with
  | nil => simp [escapeQuoteL]
  | cons c cs ih =>
    have hc : c ≠ '\n' := fun hc => h (by simp [hc])
    have hcs : '\n' ∉ cs := fun hm => h (by simp [hm])
    by_cases hq : c = '\''
    · subst hq
      simp [escapeQuoteL, ih hcs]
    · simp [escapeQuoteL, hq, hc, ih hcs]
      intro hfalse
      exact absurd hfalse.symm hc

/-! ## Manifest content as a list of directive lines (claim C5) -/

/-- The directive record written for one input path, without the trailing
newline: `file '<escaped>'`. -/
def directiveLine (f : String) : List Char :=
  "file '".data ++ escapeQuoteL f.data ++ ['\'']

theorem fileLine_data (f : String) :
    (fileLine f).data = directiveLine f ++ ['\n'] := by
  simp [fileLine, directiveLine, String.data_append, escapeQuote]

theorem directiveLine_no_newline (f : String) (h : '\n' ∉ f.data) :
    '\n' ∉ directiveLine f := by
  intro hmem
  simp only [directiveLine, List.mem_append] at hmem
  rcases hmem with (hmem | hmem) | hmem
  · revert hmem; decide
  · exact escapeQuoteL_no_newline f.data h hmem
  · revert hmem; decide

theorem manifestContent_data_aux (files : List String) (acc : String) :
    (files.foldl (fun a f => a ++ fileLine f) acc).data =
      acc.data ++ (files.map (fun f => directiveLine f ++ ['\n'])).flatten := by
  induction files generalizing acc with
  | nil => simp
  | cons f fs ih =>
    simp only [List.foldl_cons, ih, List.map_cons, List.flatten, String.data_append,
      fileLine_data, List.append_assoc]

theorem manifestContent_data (files : List String) :
    (manifestContent files).data =
      (files.map (fun f => directiveLine f ++ ['\n'])).flatten := by
  simpa using manifestContent_data_aux files ""

/-- C5 (amended): for every list of input paths none of which contains a
newline character, the manifest text produced by the write loop of
`createConcatListFile` has exactly one directive line per input path, in
exactly the input order: no path is duplicated, dropped, or reordered. -/
theorem c5_one_line_per_path (files : List String)
    (h : ∀ f ∈ files, '\n' ∉ f.data) :
    manifestLines (manifestContent files) = files.map directiveLine := by
  have key : ∀ (fs : List String), (∀ f ∈ fs, '\n' ∉ f.data) →
      splitLinesL ((fs.map (fun f => directiveLine f ++ ['\n'])).flatten) =
        fs.map directiveLine ++ [[]] := by
    intro fs
    induction fs with
    | nil => intro _; simp [splitLinesL]
    | cons f fs ih =>
      intro hfs
      have hf : '\n' ∉ f.data := hfs f (by simp)
      have hrest : ∀ g ∈ fs, '\n' ∉ g.data := fun g hg => hfs g (by simp [hg])
      simp only [List.map_cons, List.flatten_cons, List.append_assoc, List.singleton_append]
      rw [splitLinesL_append_newline _ _ (directiveLine_no_newline f hf), ih hrest]
      simp
  unfold manifestLines
  rw [manifestContent_data, key files h]
  simp

/-- C5 counterexample: a path containing a newline produces two physical
manifest lines for a single input path, so "manifest line count always
equals input path count" fails as stated for arbitrary path strings. -/
theorem c5_newline_counterexample :
    (manifestLines (manifestContent ["a\nb"])).length ≠
      (["a\nb"] : List String).length := by decide

/-- Witness for `c5_one_line_per_path` at a concrete input. -/
theorem c5_one_line_per_path_witness :
    manifestLines (manifestContent ["a.mp4", "b'c.mov"]) =
      (["a.mp4", "b'c.mov"] : List String).map directiveLine :=
  c5_one_line_per_path ["a.mp4", "b'c.mov"] (by decide)

/-! ## File scanner (findAndSortVideos, src/main.go:104-128)

The filesystem is modelled as a tree.  A directory's children are listed
in the order `filepath.Walk` visits them (lexical order of names); `Walk`
passes each entry's full path, built by joining the parent path and the
entry name. -/

mutual
inductive FSNode where
  | file (name : String) (modTime : Nat) : FSNode
  | dir (name : String) (children : FSList) : FSNode
inductive FSList where
  | nil : FSList
  | cons (head : FSNode) (tail : FSList) : FSList
end

def FSNode.name : FSNode → String
  | .file n _ => n
  | .dir n _ => n

/-- Embedding of Go `filepath.Ext` (unix): the suffix of the final path
element starting at its last dot; empty when the final element has no dot.
The scan runs over the reversed character list, accumulating the
characters already passed in original order. -/
def extRevAux : List Char → List Char → List Char
  | _, [] => []
  | acc, c :: rest =>
    if c = '/' then []
    else if c = '.' then '.' :: acc
    else extRevAux (c :: acc) rest

def goExt (p : String) : String := ⟨extRevAux [] p.data.reverse⟩

/-- Embedding of `strings.ToLower` restricted to ASCII (the supported
extensions are ASCII, so the ASCII mapping decides membership in the
supported set exactly as Go's Unicode mapping does for them). -/
def lowerStr (s : String) : String := ⟨s.data.map Char.toLower⟩

/-- The `supportedExtensions` map literal of src/main.go:106-111: lookup
returns the stored `true` for the four keys and the zero value `false`
otherwise. -/
def supportedExtensions (e : String) : Bool :=
  e = ".mp4" || e = ".mov" || e = ".mkv" || e = ".avi"

/-- The filter applied by the walk callback (src/main.go:117-122):
`supportedExtensions[strings.ToLower(filepath.Ext(path))]`. -/
def isSupportedPath (p : String) : Bool :=
  supportedExtensions (lowerStr (goExt p))

/-- A scanned video entry: the Go struct `VideoInfo` (src/main.go:18-21),
with `time.Time` modelled as a totally ordered `Nat` timestamp
(`ModTime.Before` is strict `<`). -/
structure VideoInfo where
  path : String
  modTime : Nat
  deriving DecidableEq, Repr

mutual
/-- Embedding of the `filepath.Walk` traversal with the callback of
src/main.go:113-124: the callback sees the node at `path`; non-directory
entries whose lowercased extension is supported are appended in visit
order. -/
def walkNode (path : String) : FSNode → List VideoInfo
  | .file _ mt => if isSupportedPath path then [⟨path, mt⟩] else []
  | .dir _ cs => walkKids path cs
def walkKids (base : String) : FSList → List VideoInfo
  | .nil => []
  | .cons c rest => walkNode (base ++ "/" ++ c.name) c ++ walkKids base rest
end

mutual
/-- Specification-side view: every non-directory entry under the node, in
visit order, with no extension filter. -/
def allFilesUnder (path : String) : FSNode → List VideoInfo
  | .file _ mt => [⟨path, mt⟩]
  | .dir _ cs => allFilesKids path cs
def allFilesKids (base : String) : FSList → List VideoInfo
  | .nil => []
  | .cons c rest => allFilesUnder (base ++ "/" ++ c.name) c ++ allFilesKids base rest
end

/-- The scan is exactly the extension filter over all files: proved by the
mutual structural induction of `FSNode`/`FSList`. -/
theorem walkNode_eq_filter (t : FSNode) (path : String) :
    walkNode path t = (allFilesUnder path t).filter (fun v => isSupportedPath v.path) :=
  @FSNode.rec
    (fun t => ∀ path, walkNode path t =
      (allFilesUnder path t).filter (fun v => isSupportedPath v.path))
    (fun cs => ∀ base, walkKids base cs =
      (allFilesKids base cs).filter (fun v => isSupportedPath v.path))
    (fun n mt path => by
      by_cases h : isSupportedPath path
      · simp [walkNode, allFilesUnder, h]
      · simp [walkNode, allFilesUnder, h])
    (fun n cs ih path => by simp [walkNode, allFilesUnder, ih path])
    (fun base => by simp [walkKids, allFilesKids])
    (fun c rest ihc ihrest base => by
      simp [walkKids, allFilesKids, ihc, ihrest, List.filter_append])
    t path

/-! ## Go's `sort.Slice` (src/main.go:131-133)

`sort.Slice` is Go's pattern-defeating quicksort (`pdqsort_func` of the
standard `sort` package, Go ≥ 1.19), which is documented as *not* stable.
The embedding below mirrors the generated `zsortfunc.go` functions, with
the element accesses of the `lessSwap` interface made explicit:
`Less(i, j)` is `videos[i].ModTime.Before(videos[j].ModTime)` and
`Swap(i, j)` exchanges the two slice elements.  Loops are written with an
explicit fuel so that every definition is structurally recursive (and thus
evaluable inside the kernel); the fuel given at the entry point strictly
dominates every loop's iteration count, and exhaustion is reported as
`none` by the entry point. -/

/-- `data.Less(i, j)` of the `sort.Slice` call at src/main.go:131-133. -/
def lessV (a : Array VideoInfo) (i j : Nat) : Bool :=
  match a.get? i, a.get? j with
  | some x, some y => decide (x.modTime < y.modTime)
  | _, _ => false

/-- `data.Swap(i, j)`: exchanges two slice elements (no-op out of range;
the algorithm only swaps in range). -/
def swapV (a : Array VideoInfo) (i j : Nat) : Array VideoInfo :=
  match a.get? i, a.get? j with
  | some x, some y => (a.setD i y).setD j x
  | _, _ => a

/-- `math/bits.Len` on a `Nat` (number of bits of the binary
representation), written with structural fuel so it evaluates in the
kernel. -/
def bitsLenAux : Nat → Nat → Nat
  | 0, _ => 0
  | fuel+1, n => if n = 0 then 0 else bitsLenAux fuel (n / 2) + 1

def bitsLen (n : Nat) : Nat := bitsLenAux (n + 1) n

/-- `insertionSort_func` inner loop:
`for j := i; j > a && data.Less(j, j-1); j--  { data.Swap(j, j-1) }`. -/
def insertionInner : Nat → Array VideoInfo → Nat → Nat → Array VideoInfo
  | 0, arr, _, _ => arr
  | fuel+1, arr, a, j =>
    if a < j ∧ lessV arr j (j-1) then insertionInner fuel (swapV arr j (j-1)) a (j-1)
    else arr

/-- `insertionSort_func` outer loop: `for i := a + 1; i < b; i++`. -/
def insertionLoop : Nat → Array VideoInfo → Nat → Nat → Nat → Array VideoInfo
  | 0, arr, _, _, _ => arr
  | fuel+1, arr, a, b, i =>
    if i < b then insertionLoop fuel (insertionInner (i+1) arr a i) a b (i+1)
    else arr

/-- `insertionSort_func(data, a, b)`. -/
def insertionSortGo (arr : Array VideoInfo) (a b : Nat) : Array VideoInfo :=
  insertionLoop (b+1) arr a b (a+1)

/-- `siftDown_func(data, lo, hi, first)` (the `lo` argument is the root
the loop starts from). -/
def siftLoop : Nat → Array VideoInfo → Nat → Nat → Nat → Array VideoInfo
  | 0, arr, _, _, _ => arr
  | fuel+1, arr, hi, first, root =>
    let child := 2*root + 1
    if child ≥ hi then arr
    else
      let child2 := if child + 1 < hi ∧ lessV arr (first+child) (first+child+1) then child + 1 else child
      if lessV arr (first+root) (first+child2) then
        siftLoop fuel (swapV arr (first+root) (first+child2)) hi first child2
      else arr

/-- Heap construction of `heapSort_func`:
`for i := (hi - 1) / 2; i >= 0; i--` (the argument is the number of
remaining iterations, the current `i` is one less). -/
def heapBuild (hi first : Nat) : Nat → Array VideoInfo → Array VideoInfo
  | 0, arr => arr
  | k+1, arr => heapBuild hi first k (siftLoop (hi+1) arr hi first k)

/-- Pop phase of `heapSort_func`:
`for i := hi - 1; i >= 0; i-- { data.Swap(first, first+i); siftDown(data, lo, i, first) }`. -/
def heapPop (first : Nat) : Nat → Array VideoInfo → Array VideoInfo
  | 0, arr => arr
  | i+1, arr => heapPop first i (siftLoop (i+1) (swapV arr first (first+i)) i first 0)

/-- `heapSort_func(data, a, b)`. -/
def heapSortGo (arr : Array VideoInfo) (a b : Nat) : Array VideoInfo :=
  heapPop a (b-a) (heapBuild (b-a) a ((b-a-1)/2 + 1) arr)

/-- `order2_func`: orders two indices by the pointed-to elements,
counting performed exchanges. -/
def order2 (arr : Array VideoInfo) (a b swaps : Nat) : Nat × Nat × Nat :=
  if lessV arr b a then (b, a, swaps + 1) else (a, b, swaps)

/-- `median_func`: index of the median of three pointed-to elements. -/
def median3 (arr : Array VideoInfo) (a b c swaps : Nat) : Nat × Nat :=
  let r1 := order2 arr a b swaps
  let r2 := order2 arr r1.2.1 c r1.2.2
  let r3 := order2 arr r1.1 r2.1 r2.2.2
  (r3.2.1, r3.2.2)

/-- `medianAdjacent_func`: median of `a-1, a, a+1`. -/
def medianAdjacent (arr : Array VideoInfo) (a swaps : Nat) : Nat × Nat :=
  median3 arr (a-1) a (a+1) swaps

inductive SortHint where
  | increasing
  | decreasing
  | unknown
  deriving DecidableEq, Repr

/-- The `switch swaps` at the end of `choosePivot_func`
(`maxSwaps = 4 * 3`). -/
def hintFromSwaps (s : Nat) : SortHint :=
  if s = 0 then .increasing else if s = 12 then .decreasing else .unknown

/-- `choosePivot_func(data, a, b)`: median (of medians) of fixed sample
positions; `shortestNinther = 50`. -/
def choosePivot (arr : Array VideoInfo) (a b : Nat) : Nat × SortHint :=
  let l := b - a
  let i := a + l/4*1
  let j := a + l/4*2
  let k := a + l/4*3
  if l ≥ 8 then
    if l ≥ 50 then
      let r1 := medianAdjacent arr i 0
      let r2 := medianAdjacent arr j r1.2
      let r3 := medianAdjacent arr k r2.2
      let r4 := median3 arr r1.1 r2.1 r3.1 r3.2
      (r4.1, hintFromSwaps r4.2)
    else
      let r := median3 arr i j k 0
      (r.1, hintFromSwaps r.2)
  else (j, hintFromSwaps 0)

/-- `reverseRange_func` loop. -/
def revLoop : Nat → Array VideoInfo → Nat → Nat → Array VideoInfo
  | 0, arr, _, _ => arr
  | fuel+1, arr, i, j => if i < j then revLoop fuel (swapV arr i j) (i+1) (j-1) else arr

/-- `reverseRange_func(data, a, b)`. -/
def reverseRangeGo (arr : Array VideoInfo) (a b : Nat) : Array VideoInfo :=
  revLoop b arr a (b-1)

/-- The `xorshift` generator of the `sort` package (`uint64` state):
`r ^= r << 13; r ^= r >> 7; r ^= r << 17`. -/
def xorshiftNext (r : Nat) : Nat :=
  let r1 := Nat.xor r ((r <<< 13) % 2^64) % 2^64
  let r2 := Nat.xor r1 (r1 >>> 7)
  Nat.xor r2 ((r2 <<< 17) % 2^64) % 2^64

/-- `nextPowerOfTwo(length) = 1 << bits.Len(uint(length))`. -/
def nextPowerOfTwo (length : Nat) : Nat := 1 <<< bitsLen length

/-- `breakPatterns_func(data, a, b)`: scrambles three elements around the
middle using the xorshift generator seeded with the range length; the
`for i := 0; i < 3; i++` loop is unrolled. -/
def breakPatterns (arr : Array VideoInfo) (a b : Nat) : Array VideoInfo :=
  let length := b - a
  if length ≥ 8 then
    let modulus := nextPowerOfTwo length
    let idx := a + (length/4)*2 - 1
    let r1 := xorshiftNext length
    let o1 := (fun t => if t ≥ length then t - length else t) (Nat.land r1 (modulus - 1))
    let arr1 := swapV arr (idx - 1 + 0) (a + o1)
    let r2 := xorshiftNext r1
    let o2 := (fun t => if t ≥ length then t - length else t) (Nat.land r2 (modulus - 1))
    let arr2 := swapV arr1 (idx - 1 + 1) (a + o2)
    let r3 := xorshiftNext r2
    let o3 := (fun t => if t ≥ length then t - length else t) (Nat.land r3 (modulus - 1))
    swapV arr2 (idx - 1 + 2) (a + o3)
  else arr

/-- `for i <= j && data.Less(i, a) { i++ }` (partition scan; in every use
`i` starts at least at `a+1 ≥ 1`, so the `Nat` indices match Go's
`int`s). -/
def scanLess : Nat → Array VideoInfo → Nat → Nat → Nat → Nat
  | 0, _, _, _, i => i
  | fuel+1, arr, aIdx, j, i =>
    if i ≤ j ∧ lessV arr i aIdx then scanLess fuel arr aIdx j (i+1) else i

/-- `for i <= j && !data.Less(j, a) { j-- }`. -/
def scanNotLess : Nat → Array VideoInfo → Nat → Nat → Nat → Nat
  | 0, _, _, _, j => j
  | fuel+1, arr, aIdx, i, j =>
    if i ≤ j ∧ ¬lessV arr j aIdx then scanNotLess fuel arr aIdx i (j-1) else j

/-- The `for {}` loop of `partition_func` after the first exchange. -/
def partitionLoop : Nat → Array VideoInfo → Nat → Nat → Nat → Array VideoInfo × Nat
  | 0, arr, _, _, j => (arr, j)
  | fuel+1, arr, aIdx, i, j =>
    let i1 := scanLess (j+2) arr aIdx j i
    let j1 := scanNotLess (j+2) arr aIdx i1 j
    if i1 > j1 then (arr, j1)
    else partitionLoop fuel (swapV arr i1 j1) aIdx (i1+1) (j1-1)

/-- `partition_func(data, a, b, pivot)`: Hoare-style partition around the
element moved to position `a`; returns the final pivot position and
whether the range was already partitioned. -/
def partitionGo (arr0 : Array VideoInfo) (a b pivot : Nat) : Array VideoInfo × Nat × Bool :=
  let arr := swapV arr0 a pivot
  let i := scanLess (b+2) arr a (b-1) (a+1)
  let j := scanNotLess (b+2) arr a i (b-1)
  if i > j then (swapV arr j a, j, true)
  else
    let r := partitionLoop (b+2) (swapV arr i j) a (i+1) (j-1)
    (swapV r.1 r.2 a, r.2, false)

/-- `for i <= j && !data.Less(a, i) { i++ }` (partitionEqual scan). -/
def scanNotLessUp : Nat → Array VideoInfo → Nat → Nat → Nat → Nat
  | 0, _, _, _, i => i
  | fuel+1, arr, aIdx, j, i =>
    if i ≤ j ∧ ¬lessV arr aIdx i then scanNotLessUp fuel arr aIdx j (i+1) else i

/-- `for i <= j && data.Less(a, j) { j-- }`. -/
def scanLessDown : Nat → Array VideoInfo → Nat → Nat → Nat → Nat
  | 0, _, _, _, j => j
  | fuel+1, arr, aIdx, i, j =>
    if i ≤ j ∧ lessV arr aIdx j then scanLessDown fuel arr aIdx i (j-1) else j

/-- The `for {}` loop of `partitionEqual_func`; returns the first index of
the strictly-greater suffix. -/
def partitionEqualLoop : Nat → Array VideoInfo → Nat → Nat → Nat → Array VideoInfo × Nat
  | 0, arr, _, i, _ => (arr, i)
  | fuel+1, arr, aIdx, i, j =>
    let i1 := scanNotLessUp (j+2) arr aIdx j i
    let j1 := scanLessDown (j+2) arr aIdx i1 j
    if i1 > j1 then (arr, i1)
    else partitionEqualLoop fuel (swapV arr i1 j1) aIdx (i1+1) (j1-1)

/-- `partitionEqual_func(data, a, b, pivot)`. -/
def partitionEqualGo (arr0 : Array VideoInfo) (a b pivot : Nat) : Array VideoInfo × Nat :=
  partitionEqualLoop (b+2) (swapV arr0 a pivot) a (a+1) (b-1)

/-- `for i < b && !data.Less(i, i-1) { i++ }` (sorted-prefix scan of Go's
partial insertion sort). -/
def pisAdvance : Nat → Array VideoInfo → Nat → Nat → Nat
  | 0, _, _, i => i
  | fuel+1, arr, b, i =>
    if i < b ∧ ¬lessV arr i (i-1) then pisAdvance fuel arr b (i+1) else i

/-- Left shift loop: `for j := i - 1; j >= 1; j--`. -/
def pisShiftLeft : Nat → Array VideoInfo → Nat → Array VideoInfo
  | 0, arr, _ => arr
  | fuel+1, arr, j =>
    if 1 ≤ j then
      if ¬lessV arr j (j-1) then arr
      else pisShiftLeft fuel (swapV arr j (j-1)) (j-1)
    else arr

/-- Right shift loop: `for j := i + 1; j < b; j++`. -/
def pisShiftRight : Nat → Array VideoInfo → Nat → Nat → Array VideoInfo
  | 0, arr, _, _ => arr
  | fuel+1, arr, b, j =>
    if j < b then
      if ¬lessV arr j (j-1) then arr
      else pisShiftRight fuel (swapV arr j (j-1)) b (j+1)
    else arr

/-- The `for j := 0; j < maxSteps; j++` loop of Go's
`partialInsertionSort_func` (`maxSteps = 5`, `shortestShifting = 50`); the
first argument is the number of remaining steps. -/
def pisSteps : Nat → Array VideoInfo → Nat → Nat → Nat → Array VideoInfo × Bool
  | 0, arr, _, _, _ => (arr, false)
  | steps+1, arr, a, b, i =>
    let i1 := pisAdvance (b+1) arr b i
    if i1 = b then (arr, true)
    else if b - a < 50 then (arr, false)
    else
      let arr1 := swapV arr i1 (i1-1)
      let arr2 := if i1 - a ≥ 2 then pisShiftLeft i1 arr1 (i1-1) else arr1
      let arr3 := if b - i1 ≥ 2 then pisShiftRight (b+1) arr2 b (i1+1) else arr2
      pisSteps steps arr3 a b i1

/-- Go's `partialInsertionSort_func(data, a, b)`: sorts ranges that are
already almost sorted, giving up after five misplaced elements. -/
def pisGo (arr : Array VideoInfo) (a b : Nat) : Array VideoInfo × Bool :=
  pisSteps 5 arr a b (a+1)

/-- `pdqsort_func(data, a, b, limit)` (`maxInsertion = 12`): both the
`for {}` loop (via `continue`) and the recursion into the shorter side are
expressed as recursive calls, consuming one unit of fuel each, exactly as
the control flow of the Go function transfers; the locals `wasBalanced`
and `wasPartitioned` start as `true` and are threaded explicitly. -/
def pdq : Nat → Array VideoInfo → Nat → Nat → Nat → Bool → Bool → Option (Array VideoInfo)
  | 0, _, _, _, _, _, _ => none
  | fuel+1, arr0, a, b, limit0, wasBalanced, wasPartitioned =>
    let length := b - a
    if length ≤ 12 then some (insertionSortGo arr0 a b)
    else if limit0 = 0 then some (heapSortGo arr0 a b)
    else
      let arr1 := if !wasBalanced then breakPatterns arr0 a b else arr0
      let limit := if !wasBalanced then limit0 - 1 else limit0
      let pv := choosePivot arr1 a b
      let arr2 := if pv.2 = SortHint.decreasing then reverseRangeGo arr1 a b else arr1
      let pivot := if pv.2 = SortHint.decreasing then (b-1) - (pv.1 - a) else pv.1
      let hint := if pv.2 = SortHint.decreasing then SortHint.increasing else pv.2
      let pis := if wasBalanced ∧ wasPartitioned ∧ hint = SortHint.increasing
        then pisGo arr2 a b else (arr2, false)
      if pis.2 then some pis.1
      else
        let arr3 := pis.1
        if 0 < a ∧ ¬lessV arr3 (a-1) pivot then
          let pe := partitionEqualGo arr3 a b pivot
          pdq fuel pe.1 pe.2 b limit wasBalanced wasPartitioned
        else
          let pr := partitionGo arr3 a b pivot
          let mid := pr.2.1
          let leftLen := mid - a
          let rightLen := b - mid
          let wasBalanced2 := decide (min leftLen rightLen ≥ length / 8)
          if leftLen < rightLen then
            match pdq fuel pr.1 a mid limit true true with
            | none => none
            | some arr4 => pdq fuel arr4 (mid+1) b limit wasBalanced2 pr.2.2
          else
            match pdq fuel pr.1 (mid+1) b limit true true with
            | none => none
            | some arr4 => pdq fuel arr4 a mid limit wasBalanced2 pr.2.2

/-- `sort.Slice(videos, less)` (src/main.go:131-133):
`pdqsort_func(lessSwap, 0, length, bits.Len(uint(length)))`.  `none`
reports fuel exhaustion and never occurs for the fuel supplied (the chain
of recursive `pdq` calls shrinks the range at every step). -/
def goSortSlice (videos : List VideoInfo) : Option (List VideoInfo) :=
  (pdq (2 * videos.length + 8) videos.toArray 0 videos.length
    (bitsLen videos.length) true true).map Array.toList

/-! ## Stability of the Sorter (claim C2) -/

/-- Tie-stability as the spec states it: whenever entry `i` precedes entry
`j` in the scan and both have the same modification time, `i`'s path must
precede `j`'s path in the output. -/
def tieOrderPreserved (inp out : List VideoInfo) : Bool :=
  (List.range inp.length).all fun i =>
    (List.range inp.length).all fun j =>
      !(decide (i < j)) ||
        (match inp.get? i, inp.get? j with
         | some x, some y =>
             !(x.modTime == y.modTime) ||
               decide (out.findIdx (fun v => v.path == x.path) <
                 out.findIdx (fun v => v.path == y.path))
         | _, _ => true)

/-- Thirteen scanned entries (just over the insertion-sort cutoff of 12):
the seventh has the earliest modification time, all others share one
later timestamp. -/
def tiedScan : List VideoInfo :=
  [⟨"v00", 2⟩, ⟨"v01", 2⟩, ⟨"v02", 2⟩, ⟨"v03", 2⟩, ⟨"v04", 2⟩, ⟨"v05", 2⟩,
   ⟨"v06", 1⟩, ⟨"v07", 2⟩, ⟨"v08", 2⟩, ⟨"v09", 2⟩, ⟨"v10", 2⟩, ⟨"v11", 2⟩,
   ⟨"v12", 2⟩]

/-- What `sort.Slice` actually produces on `tiedScan`: the tied entries
end up in the order v03, v02, v00, v04, v05, v01, … — not scan order. -/
def tiedSorted : List VideoInfo :=
  [⟨"v06", 1⟩, ⟨"v03", 2⟩, ⟨"v02", 2⟩, ⟨"v00", 2⟩, ⟨"v04", 2⟩, ⟨"v05", 2⟩,
   ⟨"v01", 2⟩, ⟨"v07", 2⟩, ⟨"v08", 2⟩, ⟨"v09", 2⟩, ⟨"v10", 2⟩, ⟨"v11", 2⟩,
   ⟨"v12", 2⟩]

/-- C2 fails on the code: `sort.Slice` (src/main.go:131) is not a stable
sort.  On `tiedScan` the embedded `sort.Slice` permutes entries with equal
modification times away from scan order, and its output differs from the
stable ascending sort the claim requires. -/
theorem c2_sortSlice_not_stable :
    goSortSlice tiedScan = some tiedSorted ∧
    tieOrderPreserved tiedScan tiedSorted = false ∧
    tiedSorted ≠ List.insertionSort (fun x y => x.modTime ≤ y.modTime) tiedScan := by
  refine ⟨by decide, by decide, by decide⟩

/-! ## `filepath.Abs` (src/main.go:137)

`filepath.Abs` on unix: an already-absolute path is lexically cleaned; a
relative path is joined to the working directory (`os.Getwd`) and cleaned.
It consults nothing on disk except `Getwd`, so it can only fail when the
working directory cannot be determined. -/

deriving instance DecidableEq for Except

/-- `filepath.IsAbs` (unix): `strings.HasPrefix(path, "/")`. -/
def isAbsPath (p : String) : Bool := decide (p.data.head? = some '/')

/-- The backtracking step of `filepath.Clean`'s `..` handling:
`out.w--` has already happened (the start index is `out.length - 1`);
then `for out.w > dotdot && out.index(out.w) != '/' { out.w-- }`. -/
def backWhile : Nat → List Char → Nat → Nat → Nat
  | 0, _, _, w => w
  | fuel+1, out, dotdot, w =>
    if w > dotdot ∧ out.get? w ≠ some '/' then backWhile fuel out dotdot (w-1) else w

/-- The scanning loop of `filepath.Clean` (unix separators): `out` is the
live prefix of the lazybuf (`out.length` is `out.w`), `dotdot` marks the
portion that `..` may not back over.  Each iteration consumes at least one
character of `remaining`, so the supplied fuel never runs out. -/
def cleanLoop : Nat → Bool → List Char → List Char → Nat → List Char
  | 0, _, _, out, _ => out
  | fuel+1, rooted, remaining, out, dotdot =>
    match remaining with
    | [] => out
    | c :: rest =>
      if c = '/' then cleanLoop fuel rooted rest out dotdot
      else if c = '.' ∧ (rest = [] ∨ rest.head? = some '/') then
        cleanLoop fuel rooted rest out dotdot
      else if c = '.' ∧ rest.head? = some '.' ∧ (rest.tail = [] ∨ rest.tail.head? = some '/') then
        let rest2 := rest.tail
        if out.length > dotdot then
          let w := backWhile (out.length + 1) out dotdot (out.length - 1)
          cleanLoop fuel rooted rest2 (out.take w) dotdot
        else if rooted = false then
          let out1 := if out.length > 0 then out ++ ['/'] else out
          let out2 := out1 ++ ['.', '.']
          cleanLoop fuel rooted rest2 out2 out2.length
        else cleanLoop fuel rooted rest2 out dotdot
      else
        let needSep := if rooted then out.length ≠ 1 else out.length ≠ 0
        let out1 := if needSep then out ++ ['/'] else out
        cleanLoop fuel rooted (remaining.dropWhile (· != '/'))
          (out1 ++ remaining.takeWhile (· != '/')) dotdot

/-- `filepath.Clean` (unix). -/
def goClean (path : String) : String :=
  if path = "" then "."
  else
    let cs := path.data
    let rooted := decide (cs.head? = some '/')
    let res := cleanLoop (cs.length + 2) rooted cs
      (if rooted then ['/'] else []) (if rooted then 1 else 0)
    if res.length = 0 then "." else ⟨res⟩

/-- `filepath.Join(a, b)` (unix, two elements): `Clean` of the
slash-joined nonempty elements. -/
def goJoin (a b : String) : String :=
  if a ≠ "" then goClean (a ++ "/" ++ b)
  else if b ≠ "" then goClean b
  else ""

/-- `filepath.Abs(path)` with the `os.Getwd` result passed explicitly
(`none` models a `Getwd` failure, the only error source). -/
def goAbs (cwd : Option String) (path : String) : Except String String :=
  if isAbsPath path then .ok (goClean path)
  else
    match cwd with
    | none => .error "getwd failed"
    | some wd => .ok (goJoin wd path)

/-- The absolute-path loop of `findAndSortVideos` (src/main.go:135-142):
appends `filepath.Abs` of each sorted entry in order and returns
`nil, err` — no partial result — on the first failure. -/
def absPhase (cwd : Option String) : List VideoInfo → Except String (List String)
  | [] => .ok []
  | v :: rest =>
    match goAbs cwd v.path with
    | .error e => .error e
    | .ok p =>
      match absPhase cwd rest with
      | .error e => .error e
      | .ok ps => .ok (p :: ps)

/-- `findAndSortVideos(dir)` (src/main.go:104-145) over the filesystem
tree: walk, `sort.Slice` by modification time, then the `filepath.Abs`
loop.  (`filepath.Walk` I/O errors are outside the tree model, whose
traversal always succeeds; `none` only reports sort-fuel exhaustion and
never occurs.) -/
def findAndSortVideos (cwd : Option String) (dir : String) (root : FSNode) :
    Option (Except String (List String)) :=
  match goSortSlice (walkNode dir root) with
  | none => none
  | some sorted => some (absPhase cwd sorted)

/-- C4: the Scanner returns exactly the non-directory entries whose
extension, lowercased, is one of `.mp4`, `.mov`, `.mkv`, `.avi` —
`allFilesUnder` enumerates precisely the file nodes (never directories)
of the recursive traversal — and a scan with no match yields the empty
list, not an error, so `findAndSortVideos` returns `ok []`. -/
theorem c4_scanner (base : String) (t : FSNode) :
    walkNode base t = (allFilesUnder base t).filter (fun v => isSupportedPath v.path) ∧
    (walkNode base t = [] → ∀ cwd, findAndSortVideos cwd base t = some (Except.ok [])) := by
  refine ⟨walkNode_eq_filter t base, fun h cwd => ?_⟩
  simp [findAndSortVideos, h]
  rfl

/-- Witness for `c4_scanner`: a directory holding `clip.MKV` (matched
case-insensitively), `notes.txt` (ignored) and a subdirectory with
`b.mov`; and an unsupported-only directory scanning to `ok []`. -/
theorem c4_scanner_witness :
    walkNode "/d" (FSNode.dir "d" (.cons (.file "clip.MKV" 3)
        (.cons (.dir "sub" (.cons (.file "b.mov" 7) .nil))
          (.cons (.file "notes.txt" 9) .nil)))) =
      [⟨"/d/clip.MKV", 3⟩, ⟨"/d/sub/b.mov", 7⟩] ∧
    findAndSortVideos none "/d" (FSNode.dir "d" (.cons (.file "notes.txt" 9) .nil)) =
      some (Except.ok []) := by
  constructor
  · rw [(c4_scanner "/d" _).1]
    decide
  · exact (c4_scanner "/d" _).2 (by decide) none

/-! ## Canonicalization (claim C8) -/

/-- Modelled from the spec (§4.2): "each path is resolved to its absolute
canonical form; fails … if canonicalization fails for any entry (e.g.,
broken symlink, race where file was removed mid-run)".  Canonicalization
consults the live filesystem: `ex` reports whether a path still resolves
when the Sorter runs; a path that no longer resolves has no canonical
form. -/
def specCanonicalize (ex : String → Bool) (cwd : Option String) (p : String) :
    Option String :=
  if ex p then (goAbs cwd p).toOption else none

def c8tree : FSNode := FSNode.dir "d" (.cons (.file "a.mp4" 5) .nil)

/-- C8 fails on the code: `findAndSortVideos` uses `filepath.Abs`, which
never consults the filesystem, so a run in which the scanned file no
longer resolves (removed mid-run — `specCanonicalize` with `ex ≡ false`
fails) still succeeds with the lexically joined path instead of failing
with a path-resolution error. -/
theorem c8_canonicalization_counterexample :
    findAndSortVideos (some "/w") "vid" c8tree = some (Except.ok ["/w/vid/a.mp4"]) ∧
    specCanonicalize (fun _ => false) (some "/w") "vid/a.mp4" = none := by
  exact ⟨by decide, by decide⟩

/-- C8 (amended): after sorting, each entry's path is resolved by
`filepath.Abs` — purely lexical: an absolute path is cleaned, a relative
path is joined to the working directory — with no canonicalization or
existence check; the only failure is a working-directory (`os.Getwd`)
failure while some entry's path is relative, and in that case no partial
result is returned (`error` carries no list). -/
theorem c8_abs_lexical (cwd : Option String) (vs : List VideoInfo) :
    (∀ w, cwd = some w →
      absPhase cwd vs =
        Except.ok (vs.map fun v => if isAbsPath v.path then goClean v.path else goJoin w v.path)) ∧
    (cwd = none →
      ((∀ v ∈ vs, isAbsPath v.path = true) →
        absPhase cwd vs = Except.ok (vs.map fun v => goClean v.path)) ∧
      ((∃ v ∈ vs, isAbsPath v.path = false) → ∃ e, absPhase cwd vs = Except.error e)) := by
  induction vs with
  | nil =>
    refine ⟨fun w hw => by simp [absPhase], fun hn => ⟨fun _ => by simp [absPhase], ?_⟩⟩
    rintro ⟨v, hv, -⟩
    exact absurd hv (List.not_mem_nil v)
  | cons v rest ih =>
    constructor
    · intro w hw
      subst hw
      by_cases hab : isAbsPath v.path
      · simp [absPhase, goAbs, hab, (ih.1 w rfl)]
      · simp only [absPhase, goAbs, hab, Bool.false_eq_true, if_false, ih.1 w rfl]
        simp [hab]
    · intro hn
      subst hn
      constructor
      · intro hall
        have hv := hall v (by simp)
        have hrest := (ih.2 rfl).1 fun u hu => hall u (by simp [hu])
        simp [absPhase, goAbs, hv, hrest]
      · rintro ⟨u, hu, habs⟩
        by_cases hab : isAbsPath v.path
        · rcases List.mem_cons.mp hu with rfl | hu
          · exact absurd hab (by simp [habs])
          · rcases (ih.2 rfl).2 ⟨u, hu, habs⟩ with ⟨e, he⟩
            exact ⟨e, by simp [absPhase, goAbs, hab, he]⟩
        · exact ⟨"getwd failed", by simp [absPhase, goAbs, hab]⟩

/-- Witness for `c8_abs_lexical` at concrete inputs: with a working
directory the relative path is joined lexically; without one the same
input fails with no partial result. -/
theorem c8_abs_lexical_witness :
    absPhase (some "/w") [⟨"vid/a.mp4", 5⟩] = Except.ok ["/w/vid/a.mp4"] ∧
    (∃ e, absPhase none [⟨"vid/a.mp4", 5⟩] = Except.error e) := by
  constructor
  · rw [(c8_abs_lexical (some "/w") [⟨"vid/a.mp4", 5⟩]).1 "/w" rfl]
    decide
  · exact ((c8_abs_lexical none [⟨"vid/a.mp4", 5⟩]).2 rfl).2
      ⟨⟨"vid/a.mp4", 5⟩, by decide, by decide⟩

/-! ## Encoder selection (getDefaultEncoder, src/main.go:170-181; main, 63-67) -/

/-- `getDefaultEncoder()`: the `switch runtime.GOOS` of src/main.go:171-180
as a function of the platform identifier. -/
def getDefaultEncoder (goos : String) : String :=
  if goos = "windows" then "hevc_nvenc"
  else if goos = "darwin" then "hevc_videotoolbox"
  else "libx265"

/-- The encoder actually used (src/main.go:64-67): the `-encoder` flag
value, or the platform default when it is empty. -/
def chosenEncoder (encoder goos : String) : String :=
  if encoder = "" then getDefaultEncoder goos else encoder

/-! ## The run model (main, src/main.go:23-95)

`main`'s side effects are recorded as events.  Two facts of Go semantics
matter to the claims and are modelled explicitly: `log.Fatal`/`log.Fatalf`
call `os.Exit(1)` after printing, and `os.Exit` terminates the process
*without running deferred functions*, so the `defer os.Remove(listFilePath)`
registered at src/main.go:61 runs only when `main` returns normally. -/

inductive Event where
  | toolCheck (ok : Bool) : Event
  | scan (dir : String) : Event
  | tempCreate (path : String) : Event
  | fileRemove (path : String) : Event
  | invoke (args : List String) : Event
  deriving DecidableEq, Repr

def Event.isScan : Event → Bool
  | .scan _ => true
  | _ => false

def Event.isTempCreate : Event → Bool
  | .tempCreate _ => true
  | _ => false

def Event.isFileRemove : Event → Bool
  | .fileRemove _ => true
  | _ => false

/-- The command-line flags (src/main.go:25-29) after `flag.Parse`. -/
structure Flags where
  dir : String
  output : String
  resolution : String
  framerate : Int
  encoder : String
  deriving DecidableEq, Repr

/-- The environment a run observes: availability of `ffmpeg` on the search
path, the directory tree under `-dir`, the `os.Getwd` result, the name
`os.CreateTemp` allocates and whether it succeeds, which `WriteString`
call (by index) fails if any, whether `cmd.Run()` succeeds, and
`runtime.GOOS`. -/
structure Env where
  ffmpegAvailable : Bool
  root : FSNode
  cwd : Option String
  tempName : String
  tempCreateOk : Bool
  writeFailAt : Option Nat
  invokeOk : Bool
  goos : String

/-- Result of `createConcatListFile`: the returned path (`""` on error),
the error flag, the file events performed, and the text flushed to the
temporary file. -/
structure CCLOut where
  name : String
  err : Bool
  events : List Event
  content : String
  deriving DecidableEq, Repr

/-- The write loop of `createConcatListFile` (src/main.go:156-164): the
`i`-th `WriteString` fails when `failAt = some i`; on failure the function
returns immediately (`return "", err`), otherwise the directive line is
appended. -/
def cclWriteLoop : List String → Nat → Option Nat → String → Bool × String
  | [], _, _, acc => (false, acc)
  | f :: rest, i, failAt, acc =>
    if failAt = some i then (true, acc)
    else cclWriteLoop rest (i+1) failAt (acc ++ fileLine f)

/-- `createConcatListFile(files)` (src/main.go:148-167).  `os.CreateTemp`
failure returns `("", err)` before any file exists; a `WriteString`
failure returns `("", err)` leaving the created temporary file in place
(the function never removes it; the buffered content written so far may
or may not have been flushed by `bufio`, which does not affect the file's
existence); on success the buffer is flushed and the temporary file's
name is returned. -/
def createConcatListFile (tempName : String) (tempCreateOk : Bool)
    (writeFailAt : Option Nat) (files : List String) : CCLOut :=
  if tempCreateOk = false then ⟨"", true, [], ""⟩
  else if (cclWriteLoop files 0 writeFailAt "").1 then
    ⟨"", true, [Event.tempCreate tempName], (cclWriteLoop files 0 writeFailAt "").2⟩
  else ⟨tempName, false, [Event.tempCreate tempName], (cclWriteLoop files 0 writeFailAt "").2⟩

/-- `ffmpeg`'s argument list (src/main.go:72-83); index 9 holds the video
codec. -/
def ffmpegArgs (listFilePath : String) (flags : Flags) (enc : String) : List String :=
  ["-f", "concat", "-safe", "0", "-i", listFilePath,
   "-vf", "scale=" ++ flags.resolution ++ ",fps=" ++ toString flags.framerate,
   "-c:v", enc, "-c:a", "aac", "-b:a", "192k", "-y", flags.output]

/-- Events and exit status of one whole run. -/
structure RunResult where
  events : List Event
  exit : Nat
  deriving DecidableEq, Repr

/-- `main` (src/main.go:23-95).  Every `log.Fatal`/`log.Fatalf` branch
exits 1 immediately without running deferred functions; the
`defer os.Remove(listFilePath)` therefore appears as a `fileRemove` event
only on the normal (exit 0) return.  `none` only reports sort-fuel
exhaustion inside `findAndSortVideos` and never occurs. -/
def runMain (flags : Flags) (env : Env) : Option RunResult :=
  if flags.dir = "" || flags.output = "" then some ⟨[], 1⟩
  else if env.ffmpegAvailable = false then some ⟨[Event.toolCheck false], 1⟩
  else
    match findAndSortVideos env.cwd flags.dir env.root with
    | none => none
    | some (.error _) => some ⟨[Event.toolCheck true, Event.scan flags.dir], 1⟩
    | some (.ok videoFiles) =>
      if videoFiles.length = 0 then
        some ⟨[Event.toolCheck true, Event.scan flags.dir], 1⟩
      else
        let ccl := createConcatListFile env.tempName env.tempCreateOk env.writeFailAt videoFiles
        if ccl.err then
          some ⟨[Event.toolCheck true, Event.scan flags.dir] ++ ccl.events, 1⟩
        else
          let args := ffmpegArgs ccl.name flags (chosenEncoder flags.encoder env.goos)
          if env.invokeOk = false then
            some ⟨[Event.toolCheck true, Event.scan flags.dir] ++ ccl.events ++
              [Event.invoke args], 1⟩
          else
            some ⟨[Event.toolCheck true, Event.scan flags.dir] ++ ccl.events ++
              [Event.invoke args] ++ [Event.fileRemove ccl.name], 0⟩

/-- A manifest file was created and never removed during the run. -/
def createdNotRemoved (evs : List Event) : Bool :=
  evs.any Event.isTempCreate && !(evs.any Event.isFileRemove)

/-! ## Claim C1: manifest cleanup -/

def c1flags : Flags := ⟨"/videos", "/out.mp4", "1920x1080", 60, ""⟩

def c1tree : FSNode := FSNode.dir "videos" (.cons (.file "a.mp4" 1) .nil)

/-- A run in which everything succeeds until `cmd.Run()` fails. -/
def c1env : Env :=
  ⟨true, c1tree, some "/home", "/tmp/concat-list-1.txt", true, none, false, "linux"⟩

/-- The same run with a successful invocation. -/
def c1envOk : Env :=
  ⟨true, c1tree, some "/home", "/tmp/concat-list-1.txt", true, none, true, "linux"⟩

/-- C1 fails on the code: when `cmd.Run()` fails after the manifest was
created, `log.Fatalf` (src/main.go:91) calls `os.Exit(1)`, which skips the
deferred `os.Remove(listFilePath)` (src/main.go:61) — the run ends with
the manifest file created and never removed, although the comment at
src/main.go:60 and the spec promise deletion on program exit.  On the
success path the deferred removal does run. -/
theorem c1_manifest_leaked_on_invoke_failure :
    (runMain c1flags c1env).map (fun r => (createdNotRemoved r.events, r.exit)) =
      some (true, 1) ∧
    (runMain c1flags c1envOk).map (fun r => (createdNotRemoved r.events, r.exit)) =
      some (false, 0) := by
  exact ⟨by decide, by decide⟩

/-! ## Claim C6: tool pre-flight check -/

/-- C6: when `ffmpeg` is not resolvable on the search path, the run fails
(exit 1) before any scan happens and before any manifest file is created:
the event trace contains neither. -/
theorem c6_toolcheck_before_any_work (flags : Flags) (env : Env)
    (h : env.ffmpegAvailable = false) :
    (runMain flags env).map
      (fun r => (r.exit, r.events.any Event.isScan, r.events.any Event.isTempCreate)) =
      some (1, false, false) := by
  unfold runMain
  rw [h]
  split
  · rfl
  · rfl

def c6env : Env :=
  ⟨false, c1tree, some "/home", "/tmp/concat-list-1.txt", true, none, true, "linux"⟩

/-- Witness for `c6_toolcheck_before_any_work`. -/
theorem c6_toolcheck_before_any_work_witness :
    (runMain c1flags c6env).map
      (fun r => (r.exit, r.events.any Event.isScan, r.events.any Event.isTempCreate)) =
      some (1, false, false) :=
  c6_toolcheck_before_any_work c1flags c6env rfl

/-! ## Claim C7: default encoder mapping -/

/-- C7: with no explicit encoder the default is a pure function of the
platform identifier — `windows ↦ hevc_nvenc`, `darwin ↦
hevc_videotoolbox`, anything else `↦ libx265` — and an explicitly supplied
encoder is used unchanged. -/
theorem c7_default_encoder :
    getDefaultEncoder "windows" = "hevc_nvenc" ∧
    getDefaultEncoder "darwin" = "hevc_videotoolbox" ∧
    (∀ g, g ≠ "windows" → g ≠ "darwin" → getDefaultEncoder g = "libx265") ∧
    (∀ e g, e ≠ "" → chosenEncoder e g = e) := by
  refine ⟨by decide, by decide, fun g h1 h2 => ?_, fun e g he => ?_⟩
  · simp [getDefaultEncoder, h1, h2]
  · simp [chosenEncoder, he]

/-- Witness for `c7_default_encoder` (spec scenario: macOS with no
`-encoder` flag resolves to the VideoToolbox identifier; an explicit
encoder is passed through). -/
theorem c7_default_encoder_witness :
    getDefaultEncoder "linux" = "libx265" ∧ chosenEncoder "libvpx" "linux" = "libvpx" :=
  ⟨c7_default_encoder.2.2.1 "linux" (by decide) (by decide),
   c7_default_encoder.2.2.2 "libvpx" "linux" (by decide)⟩

/-! ## Claims C9 and C10: helper lemmas about createConcatListFile and runMain -/

theorem getDefaultEncoder_ne_empty (g : String) : getDefaultEncoder g ≠ "" := by
  unfold getDefaultEncoder
  split
  · decide
  · split
    · decide
    · decide

theorem chosenEncoder_ne_empty (e g : String) : chosenEncoder e g ≠ "" := by
  by_cases he : e = ""
  · simpa [chosenEncoder, he] using getDefaultEncoder_ne_empty g
  · simp [chosenEncoder, he]

theorem ccl_events_no_remove (t : String) (ok : Bool) (w : Option Nat)
    (files : List String) :
    (createConcatListFile t ok w files).events.any Event.isFileRemove = false := by
  unfold createConcatListFile
  split
  · rfl
  · split
    · rfl
    · rfl

theorem ccl_events_no_invoke (t : String) (ok : Bool) (w : Option Nat)
    (files : List String) (a : List String) :
    Event.invoke a ∉ (createConcatListFile t ok w files).events := by
  unfold createConcatListFile
  split
  · simp
  · split
    · simp
    · simp

/-- Index 9 of the assembled `ffmpeg` argument list is the codec. -/
theorem ffmpegArgs_get9 (n : String) (flags : Flags) (enc : String) :
    (ffmpegArgs n flags enc).get? 9 = some enc := rfl

/-- Failure branches of `main` all go through `log.Fatal`/`log.Fatalf`,
which exits before the deferred removal can run: a run that exits 1 never
removes any file. -/
theorem runMain_exit1_no_remove (flags : Flags) (env : Env) (r : RunResult)
    (h : runMain flags env = some r) (hx : r.exit = 1) :
    r.events.any Event.isFileRemove = false := by
  unfold runMain at h
  split at h
  · injection h with h2; subst h2; rfl
  · split at h
    · injection h with h2; subst h2; rfl
    · split at h
      · simp at h
      · injection h with h2; subst h2; rfl
      · split at h
        · injection h with h2; subst h2; rfl
        · dsimp only at h
          split at h
          · injection h with h2; subst h2
            simp [List.any_append, ccl_events_no_remove, Event.isFileRemove]
          · split at h
            · injection h with h2; subst h2
              simp [List.any_append, ccl_events_no_remove, Event.isFileRemove]
            · injection h with h2; subst h2
              simp at hx

/-- C9: an empty `-encoder` value is indistinguishable from omitting the
flag — the platform default is selected — the chosen encoder is never the
empty string, and any `ffmpeg` invocation the run performs carries the
chosen (nonempty) encoder as its codec argument (index 9 of the argument
list), so no run invokes the external tool with an empty codec
identifier. -/
theorem c9_empty_encoder_defaults (e g : String) (flags : Flags) (env : Env)
    (args : List String) (r : RunResult) :
    (e = "" → chosenEncoder e g = getDefaultEncoder g) ∧
    chosenEncoder e g ≠ "" ∧
    (runMain flags env = some r → Event.invoke args ∈ r.events →
      args.get? 9 = some (chosenEncoder flags.encoder env.goos) ∧
      args.get? 9 ≠ some "") := by
  refine ⟨fun he => by simp [chosenEncoder, he], chosenEncoder_ne_empty e g, ?_⟩
  intro hrun hmem
  unfold runMain at hrun
  split at hrun
  · injection hrun with h2; subst h2; simp at hmem
  · split at hrun
    · injection hrun with h2; subst h2; simp at hmem
    · split at hrun
      · simp at hrun
      · injection hrun with h2; subst h2; simp at hmem
      · rename_i videoFiles hfind
        split at hrun
        · injection hrun with h2; subst h2; simp at hmem
        · dsimp only at hrun
          split at hrun
          · injection hrun with h2; subst h2
            simp only [RunResult.events] at hmem
            rcases List.mem_append.mp hmem with hmem1 | hmem2
            · simp at hmem1
            · exact absurd hmem2 (ccl_events_no_invoke _ _ _ _ _)
          · split at hrun
            · injection hrun with h2; subst h2
              simp only [RunResult.events] at hmem
              rcases List.mem_append.mp hmem with hmem1 | hmem2
              · rcases List.mem_append.mp hmem1 with hmem3 | hmem4
                · simp at hmem3
                · exact absurd hmem4 (ccl_events_no_invoke _ _ _ _ _)
              · have harg : args = ffmpegArgs
                    (createConcatListFile env.tempName env.tempCreateOk env.writeFailAt
                      videoFiles).name flags (chosenEncoder flags.encoder env.goos) := by
                  simpa using hmem2
                subst harg
                refine ⟨ffmpegArgs_get9 _ _ _, fun hc => ?_⟩
                rw [ffmpegArgs_get9] at hc
                exact chosenEncoder_ne_empty flags.encoder env.goos (Option.some.inj hc)
            · injection hrun with h2; subst h2
              simp only [RunResult.events] at hmem
              rcases List.mem_append.mp hmem with hmem1 | hmem2
              · rcases List.mem_append.mp hmem1 with hmem3 | hmem4
                · rcases List.mem_append.mp hmem3 with hmem5 | hmem6
                  · simp at hmem5
                  · exact absurd hmem6 (ccl_events_no_invoke _ _ _ _ _)
                · have harg : args = ffmpegArgs
                      (createConcatListFile env.tempName env.tempCreateOk env.writeFailAt
                        videoFiles).name flags (chosenEncoder flags.encoder env.goos) := by
                    simpa using hmem4
                  subst harg
                  refine ⟨ffmpegArgs_get9 _ _ _, fun hc => ?_⟩
                  rw [ffmpegArgs_get9] at hc
                  exact chosenEncoder_ne_empty flags.encoder env.goos (Option.some.inj hc)
              · simp at hmem2

def c9flagsW : Flags := ⟨"/v", "/o.mp4", "640x480", 30, ""⟩

def c9envW : Env :=
  ⟨true, FSNode.dir "v" (.cons (.file "x.mp4" 1) .nil), some "/h", "/tmp/c.txt",
    true, none, true, "linux"⟩

def c9argsW : List String := ffmpegArgs "/tmp/c.txt" c9flagsW "libx265"

def c9runW : RunResult :=
  ⟨[Event.toolCheck true, Event.scan "/v", Event.tempCreate "/tmp/c.txt",
    Event.invoke c9argsW, Event.fileRemove "/tmp/c.txt"], 0⟩

/-- Witness for `c9_empty_encoder_defaults`: a concrete successful run on
Linux with an empty `-encoder` flag. -/
theorem c9_empty_encoder_defaults_witness :
    chosenEncoder "" "darwin" = getDefaultEncoder "darwin" ∧
    chosenEncoder "" "linux" ≠ "" ∧
    c9argsW.get? 9 = some (chosenEncoder c9flagsW.encoder c9envW.goos) ∧
    c9argsW.get? 9 ≠ some "" := by
  have h3 := (c9_empty_encoder_defaults "" "linux" c9flagsW c9envW c9argsW c9runW).2.2
    (by decide) (by decide)
  exact ⟨(c9_empty_encoder_defaults "" "darwin" c9flagsW c9envW c9argsW c9runW).1 rfl,
    (c9_empty_encoder_defaults "" "linux" c9flagsW c9envW c9argsW c9runW).2.1,
    h3.1, h3.2⟩

/-! ## Claim C10: write failure in createConcatListFile -/

/-- When the failing write index lies within the file list, the write loop
reports the failure and has appended exactly the lines before it. -/
theorem cclWriteLoop_fail (files : List String) (k i : Nat) (acc : String)
    (hik : i ≤ k) (hlt : k - i < files.length) :
    cclWriteLoop files i (some k) acc =
      (true, (files.take (k - i)).foldl (fun a f => a ++ fileLine f) acc) := by
  induction files generalizing i acc with
  | nil => simp at hlt
  | cons f fs ih =>
    by_cases hk : k = i
    · subst hk
      simp [cclWriteLoop]
    · have h1 : i + 1 ≤ k := by omega
      have h2 : k - (i + 1) < fs.length := by
        simp only [List.length_cons] at hlt
        omega
      rw [show cclWriteLoop (f :: fs) i (some k) acc =
          cclWriteLoop fs (i+1) (some k) (acc ++ fileLine f) from by
        simp [cclWriteLoop, hk]]
      rw [ih (i+1) (acc ++ fileLine f) h1 h2]
      have hs : k - i = (k - (i+1)) + 1 := by omega
      rw [hs, List.take_succ_cons, List.foldl_cons]

/-- C10: when a `WriteString` fails while writing a directive line,
`createConcatListFile` returns the error together with the empty string —
not the temporary file's path — after having created the temporary file
and written only the lines preceding the failure; the function performs no
removal, and no failing run (`main` exits 1 through `log.Fatalf` before
the deferred removal is registered) removes any file, so the
partially-written temporary file survives the run. -/
theorem c10_write_error_keeps_tempfile (tempName : String) (files : List String)
    (k : Nat) (hk : k < files.length) :
    (createConcatListFile tempName true (some k) files).name = "" ∧
    (createConcatListFile tempName true (some k) files).err = true ∧
    (createConcatListFile tempName true (some k) files).events =
      [Event.tempCreate tempName] ∧
    (createConcatListFile tempName true (some k) files).content =
      manifestContent (files.take k) ∧
    (∀ flags env r, runMain flags env = some r → r.exit = 1 →
      r.events.any Event.isFileRemove = false) := by
  have hloop := cclWriteLoop_fail files k 0 "" (Nat.zero_le k) (by simpa using hk)
  have hcl : createConcatListFile tempName true (some k) files =
      ⟨"", true, [Event.tempCreate tempName],
        (files.take k).foldl (fun a f => a ++ fileLine f) ""⟩ := by
    unfold createConcatListFile
    simp [hloop]
  rw [hcl]
  exact ⟨rfl, rfl, rfl, rfl, fun flags env r => runMain_exit1_no_remove flags env r⟩

/-- Witness for `c10_write_error_keeps_tempfile`: the second write fails;
the returned path is empty, the error is set, and the created temporary
file (with the first line written) is never removed. -/
theorem c10_write_error_keeps_tempfile_witness :
    (createConcatListFile "/tmp/t.txt" true (some 1) ["/a.mp4", "/b.mp4"]).name = "" ∧
    (createConcatListFile "/tmp/t.txt" true (some 1) ["/a.mp4", "/b.mp4"]).err = true ∧
    (createConcatListFile "/tmp/t.txt" true (some 1) ["/a.mp4", "/b.mp4"]).events =
      [Event.tempCreate "/tmp/t.txt"] ∧
    (createConcatListFile "/tmp/t.txt" true (some 1) ["/a.mp4", "/b.mp4"]).content =
      manifestContent ["/a.mp4"] := by
  have h := c10_write_error_keeps_tempfile "/tmp/t.txt" ["/a.mp4", "/b.mp4"] 1 (by decide)
  exact ⟨h.1, h.2.1, h.2.2.1, by rw [h.2.2.2.1]; rfl⟩
